import Mathlib

/-!
Verification of the beautification manager
(`src/features/BeautificationManager.js`): a priority-ordered provider
dispatch for code reformatting.  The definitions below are a shallow
embedding of the module's functions; theorems check the specification's
claims against them.
-/

namespace Beautify

/-- A `{line, ch}` editor position, as used by the host editor. -/
structure Pos where
  line : Nat
  ch : Nat
deriving DecidableEq, Repr

/-- The optional `ranges` field of a provider result:
`{replaceStart, replaceEnd}`. -/
structure Ranges where
  replaceStart : Pos
  replaceEnd : Pos
deriving DecidableEq, Repr

/-- A provider's resolved result object.  `changedText` models the JS
string property (the absent/undefined property behaves like `""` on every
code path the module takes: both are falsy in `_prettify`'s guard). -/
structure BeautyObject where
  changedText : String
  ranges : Option Ranges
deriving DecidableEq, Repr

/-- The host editor/document state the module reads and writes: the
document text (a character list, `'\n'`-separated lines), the cursor,
the selection (`none` = no selection) and a counter of edit operations
recorded (one per atomic replacement, i.e. one undo step each). -/
structure EditorState where
  text : List Char
  cursor : Pos
  selection : Option (Pos × Pos)
  undoCount : Nat
deriving DecidableEq, Repr

/-- Character index where line `n` starts in the text. -/
def lineStartIdx : List Char → Nat → Nat
  | _, 0 => 0
  | [], _ + 1 => 0
  | c :: rest, n + 1 =>
    if c = '\n' then 1 + lineStartIdx rest n else 1 + lineStartIdx rest (n + 1)

/-- Character index of a `{line, ch}` position. -/
def posToIndex (cs : List Char) (p : Pos) : Nat := lineStartIdx cs p.line + p.ch

/-- Model of `document.getRange(a, b)`: the text between two positions. -/
def getRange (cs : List Char) (a b : Pos) : List Char :=
  (cs.drop (posToIndex cs a)).take (posToIndex cs b - posToIndex cs a)

/-- Advance a position over a character sequence (newlines start a new
line, other characters advance the column). -/
def advancePos : Pos → List Char → Pos
  | p, [] => p
  | p, c :: rest =>
    if c = '\n' then advancePos ⟨p.line + 1, 0⟩ rest
    else advancePos ⟨p.line, p.ch + 1⟩ rest

/-- Model of `editor.getEndingCursorPos()`: the position just past the last
character of the document. -/
def getEndingCursorPos (cs : List Char) : Pos := advancePos ⟨0, 0⟩ cs

/-- Model of `editor.hasSelection()`. -/
def hasSelection (ed : EditorState) : Bool := ed.selection.isSome

/-- Model of `editor.setSelection(a, b)`. -/
def setSelection (ed : EditorState) (a b : Pos) : EditorState :=
  { ed with selection := some (a, b) }

/-- Model of `editor.clearSelection()`. -/
def clearSelection (ed : EditorState) : EditorState :=
  { ed with selection := none }

/-- Model of `editor.replaceSelection(s, 'around')`: replace the selected range
with `s`, leaving the selection around the inserted text; one edit
operation (one undo step).  With no selection, inserts at the cursor. -/
def replaceSelectionAround (ed : EditorState) (s : List Char) : EditorState :=
  match ed.selection with
  | none =>
    let i := posToIndex ed.text ed.cursor
    { ed with
      text := ed.text.take i ++ s ++ ed.text.drop i
      selection := some (ed.cursor, advancePos ed.cursor s)
      undoCount := ed.undoCount + 1 }
  | some (a, b) =>
    let i := posToIndex ed.text a
    let j := posToIndex ed.text b
    { ed with
      text := ed.text.take i ++ s ++ ed.text.drop j
      selection := some (a, advancePos a s)
      undoCount := ed.undoCount + 1 }

/-- Model of `editor.replaceRange(s, a, b)`: replace the range `[a, b)` with `s`;
one edit operation (one undo step). -/
def replaceRange (ed : EditorState) (s : List Char) (a b : Pos) : EditorState :=
  let i := posToIndex ed.text a
  let j := posToIndex ed.text b
  { ed with
    text := ed.text.take i ++ s ++ ed.text.drop j
    cursor := advancePos a s
    undoCount := ed.undoCount + 1 }

/-- Model of `editor.setCursorPos(line, ch)`. -/
def setCursorPos (ed : EditorState) (line ch : Nat) : EditorState :=
  { ed with cursor := ⟨line, ch⟩ }

/-- Model of `_replaceText(editor, beautyObject)`: ranged replacement when
`beautyObject.ranges` is present (skipped when the range's current text
already equals `changedText`), otherwise whole-document replacement with
cursor restoration (skipped when the whole text already equals
`changedText`). -/
def replaceText (ed : EditorState) (b : BeautyObject) : EditorState :=
  match b.ranges with
  | some r =>
    if getRange ed.text r.replaceStart r.replaceEnd ≠ b.changedText.toList then
      replaceSelectionAround (setSelection ed r.replaceStart r.replaceEnd)
        b.changedText.toList
    else ed
  | none =>
    if getRange ed.text ⟨0, 0⟩ (getEndingCursorPos ed.text) ≠ b.changedText.toList then
      let cursor := ed.cursor
      let ed1 := replaceRange ed b.changedText.toList ⟨0, 0⟩ (getEndingCursorPos ed.text)
      setCursorPos ed1 cursor.line cursor.ch
    else ed

/-- What one registered candidate does when the orchestrator reaches it:
its provider object lacks a `beautify` function, or its `beautify` call
rejects/throws, or it resolves with a value (`none` models resolving
`null`/a falsy value). -/
inductive ProviderBehavior where
  | noBeautify
  | rejects
  | resolves (v : Option BeautyObject)
deriving DecidableEq, Repr

/-- Outcome of `_getBeautifiedCodeDetails`: the returned object, or the
thrown `Error("No Providers beautified text")`. -/
inductive FetchOutcome where
  | found (b : BeautyObject)
  | exhausted
deriving DecidableEq, Repr

/-- Observable trace of `_getBeautifiedCodeDetails`: its outcome, how
many providers' `beautify` functions were invoked, and how many
`console.error` diagnostics were logged for malformed entries. -/
structure FetchTrace where
  outcome : FetchOutcome
  invoked : Nat
  errorLogs : Nat
deriving DecidableEq, Repr

/-- Model of `_getBeautifiedCodeDetails(editor)`: try each candidate in order.
A malformed entry (no `beautify` function) logs a diagnostic and is
skipped; a rejection is swallowed and the loop continues; a falsy
resolution falls through the loop to the next candidate; the first
truthy resolution is returned.  If the loop finishes, throw. -/
def getBeautifiedCodeDetails : List ProviderBehavior → FetchTrace
  | [] => { outcome := .exhausted, invoked := 0, errorLogs := 0 }
  | p :: rest =>
    match p with
    | .noBeautify =>
      let t := getBeautifiedCodeDetails rest
      { t with errorLogs := t.errorLogs + 1 }
    | .rejects =>
      let t := getBeautifiedCodeDetails rest
      { t with invoked := t.invoked + 1 }
    | .resolves none =>
      let t := getBeautifiedCodeDetails rest
      { t with invoked := t.invoked + 1 }
    | .resolves (some b) => { outcome := .found b, invoked := 1, errorLogs := 0 }

/-- The two inline error messages of the exhaustion path:
`Strings.BEAUTIFY_ERROR_SELECTION` and `Strings.BEAUTIFY_ERROR`. -/
inductive ErrMsg where
  | beautifyErrorSelection
  | beautifyError
deriving DecidableEq, Repr

/-- Observable trace of one `_prettify()` run: the editor afterwards
(`none` when there was no active editor), how often
`ProjectManager.setProjectBusy` was called with `true` and with `false`,
which inline error message (if any) was displayed, and the provider
invocation/diagnostic counts. -/
structure PrettifyTrace where
  finalEditor : Option EditorState
  setBusyTrueCalls : Nat
  setBusyFalseCalls : Nat
  errorShown : Option ErrMsg
  invoked : Nat
  errorLogs : Nat
deriving DecidableEq, Repr

/-- Model of `_prettify()`: bail out with no side effects when there is no active
editor; otherwise set the project busy, fetch a result, and either
return early when the result has no usable `changedText` (note: without
clearing the busy flag), apply the result and clear the busy flag, or —
on exhaustion — display the selection/whole-document error message and
clear the busy flag. -/
def prettify (ed : Option EditorState) (providers : List ProviderBehavior) :
    PrettifyTrace :=
  match ed with
  | none =>
    { finalEditor := none, setBusyTrueCalls := 0, setBusyFalseCalls := 0
      errorShown := none, invoked := 0, errorLogs := 0 }
  | some ed =>
    let t := getBeautifiedCodeDetails providers
    match t.outcome with
    | .exhausted =>
      { finalEditor := some ed
        setBusyTrueCalls := 1, setBusyFalseCalls := 1
        errorShown := some (if hasSelection ed then ErrMsg.beautifyErrorSelection
                            else ErrMsg.beautifyError)
        invoked := t.invoked, errorLogs := t.errorLogs }
    | .found b =>
      if b.changedText = "" then
        { finalEditor := some ed
          setBusyTrueCalls := 1, setBusyFalseCalls := 0
          errorShown := none, invoked := t.invoked, errorLogs := t.errorLogs }
      else
        { finalEditor := some (replaceText ed b)
          setBusyTrueCalls := 1, setBusyFalseCalls := 1
          errorShown := none, invoked := t.invoked, errorLogs := t.errorLogs }

/-- Model of `_isBeautifyOnSaveEnabled()`: the persisted value (as returned by
`localStorage.getItem("BeautifyOnSave")`, `none` = key unset) equals the
literal string `"true"`. -/
def isBeautifyOnSaveEnabled (pref : Option String) : Bool := pref = some "true"

/-- Model of `_prettifyOnSave(_evt, doc)`: when the preference is enabled, an
editor is active, and the saved document's path equals the active
editor's path, clear the selection and run `_prettify`; otherwise do
nothing (`none`). -/
def prettifyOnSave (pref : Option String) (active : Option (String × EditorState))
    (savedDocPath : String) (providers : List ProviderBehavior) :
    Option PrettifyTrace :=
  match active with
  | none => none
  | some (path, ed) =>
    if isBeautifyOnSaveEnabled pref = true ∧ path = savedDocPath then
      some (prettify (some (clearSelection ed)) providers)
    else none

/-- The persisted preference value together with the menu checkmark
state of the "Beautify Code on Save" command. -/
structure ToggleState where
  pref : Option String
  checked : Bool
deriving DecidableEq, Repr

/-- JS template-string rendering of a boolean, as stored by
`localStorage.setItem("BeautifyOnSave", ...)`. -/
def boolToStorageString (b : Bool) : String := if b then "true" else "false"

/-- Model of `_toggleBeautifyOnSave()`: read the current enabled state, persist
its negation as a literal string, and set the checkmark to the
negation. -/
def toggleBeautifyOnSave (s : ToggleState) : ToggleState :=
  let b := isBeautifyOnSaveEnabled s.pref
  { pref := some (boolToStorageString (!b)), checked := !b }

/-- A sample editor: text `"hello world"`, no selection. -/
def ed0 : EditorState :=
  { text := "hello world".toList, cursor := ⟨0, 0⟩, selection := none, undoCount := 0 }

/-- A sample usable provider result (whole-document). -/
def exObj : BeautyObject := { changedText := "X", ranges := none }

/-- A second sample usable provider result. -/
def exObj2 : BeautyObject := { changedText := "Y", ranges := none }

/-- A truthy provider result whose `changedText` is empty (unusable). -/
def emptyObj : BeautyObject := { changedText := "", ranges := none }

/-- A sample editor with an active selection over `"hello"`. -/
def edSel : EditorState :=
  { text := "hello world".toList, cursor := ⟨0, 0⟩
    selection := some (⟨0, 0⟩, ⟨0, 5⟩), undoCount := 0 }

/-- A list whose members are all rejections is exhausted: every provider
is invoked, nothing is logged, and the loop throws. -/
theorem fetch_all_rejects (providers : List ProviderBehavior)
    (h : ∀ p ∈ providers, p = ProviderBehavior.rejects) :
    getBeautifiedCodeDetails providers =
      { outcome := .exhausted, invoked := providers.length, errorLogs := 0 } := by
  induction providers with
  | nil => rfl
  | cons q rest ih =>
    have hq := h q (List.mem_cons_self q rest)
    subst hq
    have hrest := ih (fun p hp => h p (List.mem_cons_of_mem _ hp))
    simp [getBeautifiedCodeDetails, hrest]

/-- When every candidate before index `i` rejects and candidate `i`
resolves a truthy object, the loop returns that object having invoked
exactly the first `i + 1` candidates and logged nothing. -/
theorem fetch_first_usable (providers : List ProviderBehavior) (i : Nat)
    (b : BeautyObject)
    (hbefore : ∀ p ∈ providers.take i, p = ProviderBehavior.rejects)
    (hi : providers[i]? = some (ProviderBehavior.resolves (some b))) :
    getBeautifiedCodeDetails providers =
      { outcome := .found b, invoked := i + 1, errorLogs := 0 } := by
  induction providers generalizing i with
  | nil => simp at hi
  | cons q rest ih =>
    cases i with
    | zero =>
      simp at hi
      subst hi
      rfl
    | succ n =>
      have hq : q = ProviderBehavior.rejects := by
        apply hbefore
        simp [List.take_succ_cons]
      subst hq
      have hrest := ih n
        (fun p hp => hbefore p (by simp [List.take_succ_cons, hp]))
        (by simpa using hi)
      simp [getBeautifiedCodeDetails, hrest]

/-- Claim C1 (code bug): a provider resolving `null` does NOT stop the
candidate loop.  With `[resolves null, resolves {changedText: "X"}]` the
second provider is still invoked and its result returned; with
`[resolves null]` alone the run ends in the user-visible exhaustion
error message instead of a silent no-op. -/
theorem c1_null_resolution_continues :
    getBeautifiedCodeDetails
        [ProviderBehavior.resolves none, ProviderBehavior.resolves (some exObj)] =
      { outcome := .found exObj, invoked := 2, errorLogs := 0 } ∧
    (prettify (some ed0) [ProviderBehavior.resolves none]).errorShown =
      some ErrMsg.beautifyError ∧
    (prettify (some ed0) [ProviderBehavior.resolves none]).finalEditor = some ed0 := by
  decide

/-- Claim C2: candidates are tried strictly in order; rejections cause
continuation without an error log, and when candidate `i` is the first
to resolve (with a usable non-empty `changedText`), its result is the
one applied to the editor and only the first `i + 1` candidates are ever
invoked. -/
theorem c2_first_usable_result_applied (providers : List ProviderBehavior)
    (i : Nat) (b : BeautyObject) (ed : EditorState)
    (hbefore : ∀ p ∈ providers.take i, p = ProviderBehavior.rejects)
    (hi : providers[i]? = some (ProviderBehavior.resolves (some b)))
    (hb : b.changedText ≠ "") :
    getBeautifiedCodeDetails providers =
      { outcome := .found b, invoked := i + 1, errorLogs := 0 } ∧
    prettify (some ed) providers =
      { finalEditor := some (replaceText ed b)
        setBusyTrueCalls := 1, setBusyFalseCalls := 1
        errorShown := none, invoked := i + 1, errorLogs := 0 } := by
  have hf := fetch_first_usable providers i b hbefore hi
  refine ⟨hf, ?_⟩
  simp [prettify, hf, hb]

/-- Claim C2 witness: with `[rejects, resolves exObj, resolves exObj2]`
the second provider's result is applied, the third is never invoked. -/
theorem c2_witness :
    getBeautifiedCodeDetails
        [ProviderBehavior.rejects, ProviderBehavior.resolves (some exObj),
          ProviderBehavior.resolves (some exObj2)] =
      { outcome := .found exObj, invoked := 2, errorLogs := 0 } ∧
    prettify (some ed0)
        [ProviderBehavior.rejects, ProviderBehavior.resolves (some exObj),
          ProviderBehavior.resolves (some exObj2)] =
      { finalEditor := some (replaceText ed0 exObj)
        setBusyTrueCalls := 1, setBusyFalseCalls := 1
        errorShown := none, invoked := 2, errorLogs := 0 } :=
  c2_first_usable_result_applied _ 1 exObj ed0 (by decide) (by decide) (by decide)

/-- Claim C3: when every candidate rejects, no text mutation happens
(the editor is returned untouched), the busy signal is cleared, and the
inline message distinguishes the has-selection phrasing from the
whole-document phrasing. -/
theorem c3_exhaustion_reported (providers : List ProviderBehavior)
    (ed : EditorState) (h : ∀ p ∈ providers, p = ProviderBehavior.rejects) :
    prettify (some ed) providers =
      { finalEditor := some ed
        setBusyTrueCalls := 1, setBusyFalseCalls := 1
        errorShown := some (if hasSelection ed then ErrMsg.beautifyErrorSelection
                            else ErrMsg.beautifyError)
        invoked := providers.length, errorLogs := 0 } := by
  simp [prettify, fetch_all_rejects providers h]

/-- Claim C3 witness: two rejecting providers against an editor with a
selection yield the selection-phrased exhaustion message and leave the
editor untouched. -/
theorem c3_witness :
    prettify (some edSel) [ProviderBehavior.rejects, ProviderBehavior.rejects] =
      { finalEditor := some edSel
        setBusyTrueCalls := 1, setBusyFalseCalls := 1
        errorShown := some ErrMsg.beautifyErrorSelection
        invoked := 2, errorLogs := 0 } := by
  have h := c3_exhaustion_reported
    [ProviderBehavior.rejects, ProviderBehavior.rejects] edSel (by decide)
  simpa using h

/-- Claim C4 (code bug): a provider resolving a truthy object whose
`changedText` is empty makes `_prettify` return early without clearing
the busy flag: `setProjectBusy(true, ...)` is issued but no matching
`false` call ever follows. -/
theorem c4_busy_not_cleared_on_unusable_result :
    (prettify (some ed0)
        [ProviderBehavior.resolves (some emptyObj)]).setBusyTrueCalls = 1 ∧
    (prettify (some ed0)
        [ProviderBehavior.resolves (some emptyObj)]).setBusyFalseCalls = 0 := by
  decide

/-- Claim C9: a registered entry without a `beautify` function is
skipped with one extra diagnostic log; the remaining candidates produce
the same outcome, the same invocations, the same final editor and the
same error surface as if the malformed entry were absent. -/
theorem c9_malformed_provider_skipped (rest : List ProviderBehavior)
    (ed : EditorState) :
    (getBeautifiedCodeDetails (ProviderBehavior.noBeautify :: rest)).outcome =
      (getBeautifiedCodeDetails rest).outcome ∧
    (getBeautifiedCodeDetails (ProviderBehavior.noBeautify :: rest)).invoked =
      (getBeautifiedCodeDetails rest).invoked ∧
    (getBeautifiedCodeDetails (ProviderBehavior.noBeautify :: rest)).errorLogs =
      (getBeautifiedCodeDetails rest).errorLogs + 1 ∧
    (prettify (some ed) (ProviderBehavior.noBeautify :: rest)).finalEditor =
      (prettify (some ed) rest).finalEditor ∧
    (prettify (some ed) (ProviderBehavior.noBeautify :: rest)).errorShown =
      (prettify (some ed) rest).errorShown ∧
    (prettify (some ed) (ProviderBehavior.noBeautify :: rest)).setBusyFalseCalls =
      (prettify (some ed) rest).setBusyFalseCalls := by
  have hfetch : getBeautifiedCodeDetails (ProviderBehavior.noBeautify :: rest) =
      { getBeautifiedCodeDetails rest with
        errorLogs := (getBeautifiedCodeDetails rest).errorLogs + 1 } := rfl
  refine ⟨by rw [hfetch], by rw [hfetch], by rw [hfetch], ?_, ?_, ?_⟩ <;>
  · rcases hout : (getBeautifiedCodeDetails rest).outcome with b | _
    · by_cases hb : b.changedText = "" <;> simp [prettify, hfetch, hout, hb]
    · simp [prettify, hfetch, hout]

/-- Claim C9 witness: a malformed entry followed by a usable provider
still ends with the usable provider's result. -/
theorem c9_witness :
    (getBeautifiedCodeDetails
        [ProviderBehavior.noBeautify, ProviderBehavior.resolves (some exObj)]).outcome =
      (getBeautifiedCodeDetails [ProviderBehavior.resolves (some exObj)]).outcome ∧
    (getBeautifiedCodeDetails
        [ProviderBehavior.noBeautify, ProviderBehavior.resolves (some exObj)]).invoked =
      (getBeautifiedCodeDetails [ProviderBehavior.resolves (some exObj)]).invoked ∧
    (getBeautifiedCodeDetails
        [ProviderBehavior.noBeautify,
          ProviderBehavior.resolves (some exObj)]).errorLogs =
      (getBeautifiedCodeDetails
        [ProviderBehavior.resolves (some exObj)]).errorLogs + 1 ∧
    (prettify (some ed0)
        [ProviderBehavior.noBeautify,
          ProviderBehavior.resolves (some exObj)]).finalEditor =
      (prettify (some ed0) [ProviderBehavior.resolves (some exObj)]).finalEditor ∧
    (prettify (some ed0)
        [ProviderBehavior.noBeautify,
          ProviderBehavior.resolves (some exObj)]).errorShown =
      (prettify (some ed0) [ProviderBehavior.resolves (some exObj)]).errorShown ∧
    (prettify (some ed0)
        [ProviderBehavior.noBeautify,
          ProviderBehavior.resolves (some exObj)]).setBusyFalseCalls =
      (prettify (some ed0)
        [ProviderBehavior.resolves (some exObj)]).setBusyFalseCalls :=
  c9_malformed_provider_skipped [ProviderBehavior.resolves (some exObj)] ed0

/-- Taking at most the length of the left part of an append stays inside
the left part. -/
theorem take_append_left_of_le {A : Type} (l1 l2 : List A) (n : Nat)
    (h : n ≤ l1.length) : (l1 ++ l2).take n = l1.take n := by
  induction l1 generalizing n with
  | nil =>
    have : n = 0 := Nat.le_zero.mp h
    subst this
    simp
  | cons a t ih =>
    cases n with
    | zero => simp
    | succ m => simp [ih m (Nat.le_of_succ_le_succ h)]

/-- Dropping exactly the left part of an append leaves the right part. -/
theorem drop_append_own_length {A : Type} (l1 l2 : List A) :
    (l1 ++ l2).drop l1.length = l2 := by
  induction l1 with
  | nil => rfl
  | cons a t ih => simp [ih]

/-- Taking exactly the left part of an append yields the left part. -/
theorem take_append_own_length {A : Type} (l1 l2 : List A) :
    (l1 ++ l2).take l1.length = l1 := by
  induction l1 with
  | nil => rfl
  | cons a t ih => simp [ih]

/-- In `A ++ s ++ C`, the first `A.length` elements are `A`. -/
theorem append_take_front {A : Type} (a s c : List A) :
    (a ++ s ++ c).take a.length = a := by
  rw [List.append_assoc, take_append_own_length]

/-- In `A ++ s ++ C`, the `s.length` elements after `A` are `s`. -/
theorem append_extract_middle {A : Type} (a s c : List A) :
    ((a ++ s ++ c).drop a.length).take s.length = s := by
  rw [List.append_assoc, drop_append_own_length, take_append_own_length]

/-- In `A ++ s ++ C`, everything after `A ++ s` is `C`. -/
theorem append_drop_after {A : Type} (a s c : List A) :
    (a ++ s ++ c).drop (a.length + s.length) = c := by
  rw [show a.length + s.length = (a ++ s).length by simp, drop_append_own_length]

/-- Claim C5: with `ranges` present, `_replaceText` compares the text in
`[replaceStart, replaceEnd)` with `changedText`; when identical it is a
no-op (same editor, no undo entry), otherwise it replaces exactly that
range — the text before `replaceStart` and after `replaceEnd` is
untouched, the range now holds `changedText` — in one edit operation. -/
theorem c5_ranged_replacement (ed : EditorState) (b : BeautyObject) (r : Ranges)
    (hr : b.ranges = some r) :
    (getRange ed.text r.replaceStart r.replaceEnd = b.changedText.toList →
      replaceText ed b = ed) ∧
    (getRange ed.text r.replaceStart r.replaceEnd ≠ b.changedText.toList →
      posToIndex ed.text r.replaceStart ≤ posToIndex ed.text r.replaceEnd →
      posToIndex ed.text r.replaceEnd ≤ ed.text.length →
      (replaceText ed b).text =
        ed.text.take (posToIndex ed.text r.replaceStart) ++ b.changedText.toList ++
          ed.text.drop (posToIndex ed.text r.replaceEnd) ∧
      (replaceText ed b).text.take (posToIndex ed.text r.replaceStart) =
        ed.text.take (posToIndex ed.text r.replaceStart) ∧
      ((replaceText ed b).text.drop (posToIndex ed.text r.replaceStart)).take
          b.changedText.toList.length = b.changedText.toList ∧
      (replaceText ed b).text.drop
          (posToIndex ed.text r.replaceStart + b.changedText.toList.length) =
        ed.text.drop (posToIndex ed.text r.replaceEnd) ∧
      (replaceText ed b).undoCount = ed.undoCount + 1) := by
  constructor
  · intro heq
    simp [replaceText, hr, heq]
  · intro hne hij hjlen
    have hne2 : ¬ (getRange ed.text r.replaceStart r.replaceEnd =
        b.changedText.data) := hne
    have htext : (replaceText ed b).text =
        ed.text.take (posToIndex ed.text r.replaceStart) ++ b.changedText.toList ++
          ed.text.drop (posToIndex ed.text r.replaceEnd) := by
      simp [replaceText, hr, hne2, replaceSelectionAround, setSelection]
    have hundo : (replaceText ed b).undoCount = ed.undoCount + 1 := by
      simp [replaceText, hr, hne2, replaceSelectionAround, setSelection]
    have hilen : (ed.text.take (posToIndex ed.text r.replaceStart)).length =
        posToIndex ed.text r.replaceStart := by
      simp [List.length_take]
      omega
    refine ⟨htext, ?_, ?_, ?_, hundo⟩
    · have h1 := append_take_front
        (ed.text.take (posToIndex ed.text r.replaceStart)) b.changedText.toList
        (ed.text.drop (posToIndex ed.text r.replaceEnd))
      rw [hilen] at h1
      rw [htext, h1]
    · have h1 := append_extract_middle
        (ed.text.take (posToIndex ed.text r.replaceStart)) b.changedText.toList
        (ed.text.drop (posToIndex ed.text r.replaceEnd))
      rw [hilen] at h1
      rw [htext, h1]
    · have h1 := append_drop_after
        (ed.text.take (posToIndex ed.text r.replaceStart)) b.changedText.toList
        (ed.text.drop (posToIndex ed.text r.replaceEnd))
      rw [hilen] at h1
      rw [htext, h1]

/-- The spec test range `{replaceStart: {0,0}, replaceEnd: {0,5}}`. -/
def rC5 : Ranges := { replaceStart := ⟨0, 0⟩, replaceEnd := ⟨0, 5⟩ }

/-- A ranged result replacing the first five characters with `"HELLO"`. -/
def objC5 : BeautyObject := { changedText := "HELLO", ranges := some rC5 }

/-- A ranged result whose `changedText` equals the range's current text. -/
def objC5same : BeautyObject := { changedText := "hello", ranges := some rC5 }

/-- Claim C5 witness: on `"hello world"`, replacing `[{0,0}, {0,5})` by
`"HELLO"` changes exactly that range in one edit operation. -/
theorem c5_witness :
    (replaceText ed0 objC5).text =
      ed0.text.take (posToIndex ed0.text rC5.replaceStart) ++
        objC5.changedText.toList ++
        ed0.text.drop (posToIndex ed0.text rC5.replaceEnd) ∧
    (replaceText ed0 objC5).undoCount = ed0.undoCount + 1 := by
  have h := (c5_ranged_replacement ed0 objC5 rC5 rfl).2
    (by decide) (by decide) (by decide)
  exact ⟨h.1, h.2.2.2.2⟩

/-- Advancing from line `l` is advancing from line `0` shifted by `l`:
the traversal only ever increments the line. -/
theorem advancePos_shift (cs : List Char) (l c : Nat) :
    advancePos ⟨l, c⟩ cs =
      ⟨l + (advancePos ⟨0, c⟩ cs).line, (advancePos ⟨0, c⟩ cs).ch⟩ := by
  induction cs generalizing l c with
  | nil => simp [advancePos]
  | cons a rest ih =>
    by_cases ha : a = '\n'
    · simp only [advancePos, ha, if_pos]
      rw [ih (l + 1) 0, ih 1 0]
      simp
      omega
    · simp only [advancePos, ha, if_neg, ite_false]
      exact ih l (c + 1)

/-- Position arithmetic for the end-of-text traversal: the character
index of `advancePos ⟨0, c⟩ cs` in `cs` is the whole length of `cs`
(plus the starting column when `cs` spans a single line). -/
theorem lineStartIdx_advance (cs : List Char) (c : Nat) :
    lineStartIdx cs (advancePos ⟨0, c⟩ cs).line + (advancePos ⟨0, c⟩ cs).ch =
      if (advancePos ⟨0, c⟩ cs).line = 0 then cs.length + c else cs.length := by
  induction cs generalizing c with
  | nil => simp [advancePos, lineStartIdx]
  | cons a rest ih =>
    by_cases ha : a = '\n'
    · subst ha
      rw [show advancePos ⟨0, c⟩ ('\n' :: rest) = advancePos ⟨1, 0⟩ rest from by
        simp [advancePos]]
      rw [advancePos_shift rest 1 0]
      have key : lineStartIdx rest (advancePos ⟨0, 0⟩ rest).line +
          (advancePos ⟨0, 0⟩ rest).ch = rest.length := by
        have h0 := ih 0
        split_ifs at h0 <;> omega
      simp only []
      rw [show (1 : Nat) + (advancePos ⟨0, 0⟩ rest).line =
        (advancePos ⟨0, 0⟩ rest).line + 1 from Nat.add_comm 1 _]
      rw [show lineStartIdx ('\n' :: rest) ((advancePos ⟨0, 0⟩ rest).line + 1) =
        1 + lineStartIdx rest (advancePos ⟨0, 0⟩ rest).line from by
        simp [lineStartIdx]]
      rw [if_neg (Nat.succ_ne_zero _)]
      simp
      omega
    · rw [show advancePos ⟨0, c⟩ (a :: rest) = advancePos ⟨0, c + 1⟩ rest from by
        simp [advancePos, ha]]
      have h0 := ih (c + 1)
      rcases hline : (advancePos ⟨0, c + 1⟩ rest).line with _ | m
      · rw [hline] at h0
        simp only [if_pos rfl] at h0 ⊢
        simp [lineStartIdx] at h0 ⊢
        omega
      · rw [hline] at h0
        simp only [Nat.succ_ne_zero, if_neg, ite_false] at h0 ⊢
        rw [show lineStartIdx (a :: rest) (m + 1) =
          1 + lineStartIdx rest (m + 1) from by simp [lineStartIdx, ha]]
        simp
        omega

/-- Line `0` starts at character index `0`. -/
theorem lineStartIdx_zero (cs : List Char) : lineStartIdx cs 0 = 0 := by
  cases cs <;> rfl

/-- The position `{line: 0, ch: 0}` has character index `0`. -/
theorem posToIndex_zero (cs : List Char) : posToIndex cs ⟨0, 0⟩ = 0 := by
  simp [posToIndex, lineStartIdx_zero]

/-- The character index of `getEndingCursorPos` is the text length. -/
theorem posToIndex_ending (cs : List Char) :
    posToIndex cs (getEndingCursorPos cs) = cs.length := by
  have h := lineStartIdx_advance cs 0
  unfold posToIndex getEndingCursorPos
  split_ifs at h <;> omega

/-- Reading the range from `{line: 0, ch: 0}` to the ending cursor
position yields the entire document text. -/
theorem getRange_full (cs : List Char) :
    getRange cs ⟨0, 0⟩ (getEndingCursorPos cs) = cs := by
  unfold getRange
  rw [posToIndex_ending, posToIndex_zero]
  simp

/-- Claim C6: with `ranges` absent, `_replaceText` compares the entire
current document text (read as the range from `{0,0}` to the ending
cursor position) against `changedText`; when identical it is a no-op,
otherwise it replaces the whole text with `changedText` in one edit
operation and restores the cursor to its pre-replacement `{line, ch}`
coordinates. -/
theorem c6_whole_document_replacement (ed : EditorState) (b : BeautyObject)
    (hr : b.ranges = none) :
    (ed.text = b.changedText.toList → replaceText ed b = ed) ∧
    (ed.text ≠ b.changedText.toList →
      (replaceText ed b).text = b.changedText.toList ∧
      (replaceText ed b).cursor = ed.cursor ∧
      (replaceText ed b).undoCount = ed.undoCount + 1) := by
  have hfull : getRange ed.text ⟨0, 0⟩ (getEndingCursorPos ed.text) = ed.text :=
    getRange_full ed.text
  constructor
  · intro heq
    have hcondpos : getRange ed.text ⟨0, 0⟩ (getEndingCursorPos ed.text) =
        b.changedText.data := by
      rw [hfull]
      exact heq
    simp [replaceText, hr, hcondpos]
  · intro hne
    have hcond : ¬ (getRange ed.text ⟨0, 0⟩ (getEndingCursorPos ed.text) =
        b.changedText.data) := by
      rw [hfull]
      exact hne
    refine ⟨?_, ?_, ?_⟩ <;>
      simp [replaceText, hr, hcond, replaceRange, setCursorPos,
        posToIndex_ending, posToIndex_zero]

/-- Claim C6 witness: replacing the whole of `"hello world"` by `"X"`
yields text `"X"`, an extra undo step, and the original cursor. -/
theorem c6_witness :
    (replaceText ed0 exObj).text = exObj.changedText.toList ∧
    (replaceText ed0 exObj).cursor = ed0.cursor ∧
    (replaceText ed0 exObj).undoCount = ed0.undoCount + 1 :=
  (c6_whole_document_replacement ed0 exObj rfl).2 (by decide)

/-- Claim C7: a save triggers beautification exactly when the persisted
preference is the literal `"true"` and the saved document's path equals
the active editor's document path; with no active editor, or a
background (non-active) document, nothing is triggered. -/
theorem c7_on_save_gating (pref : Option String)
    (active : Option (String × EditorState)) (docPath : String)
    (providers : List ProviderBehavior) :
    (prettifyOnSave pref active docPath providers).isSome = true ↔
      (isBeautifyOnSaveEnabled pref = true ∧
        ∃ ed, active = some (docPath, ed)) := by
  rcases active with _ | ⟨path, ed⟩
  · simp [prettifyOnSave]
  · by_cases h1 : isBeautifyOnSaveEnabled pref = true
    · by_cases h2 : path = docPath
      · subst h2
        simp [prettifyOnSave, h1]
      · simp only [prettifyOnSave]
        rw [if_neg (by exact fun hc => h2 hc.2)]
        simp [Prod.ext_iff]
        intro _ hpath
        exact absurd hpath h2
    · simp only [prettifyOnSave]
      rw [if_neg (by exact fun hc => h1 hc.1)]
      simp [h1]

/-- Claim C7 witness: enabled preference plus a save of the active
document's own path triggers; same save with the preference enabled but
a different path is also checked through the equivalence. -/
theorem c7_witness :
    (prettifyOnSave (some "true") (some ("a.js", ed0)) "a.js"
        [ProviderBehavior.rejects]).isSome = true :=
  (c7_on_save_gating (some "true") (some ("a.js", ed0)) "a.js"
      [ProviderBehavior.rejects]).mpr ⟨by decide, ⟨ed0, rfl⟩⟩

/-- Claim C8 counterexample: starting from the unset preference (a fresh
profile: `localStorage.getItem` yields `null`, checkmark unchecked),
toggling twice does NOT return the persisted value to its original
state — it becomes the literal string `"false"`. -/
theorem c8_counterexample :
    toggleBeautifyOnSave (toggleBeautifyOnSave
        { pref := none, checked := false }) ≠
      { pref := none, checked := false } ∧
    (toggleBeautifyOnSave (toggleBeautifyOnSave
        { pref := none, checked := false })).pref = some "false" := by
  decide

/-- Claim C8 (amended): for starting states whose persisted value is one
of the literal strings `"true"`/`"false"` and whose checkmark matches
the enabled state, toggling twice returns both the persisted value and
the checkmark to their pre-toggle state. -/
theorem c8_double_toggle_restores (pref : Option String) (checked : Bool)
    (hp : pref = some "true" ∨ pref = some "false")
    (hc : checked = isBeautifyOnSaveEnabled pref) :
    toggleBeautifyOnSave (toggleBeautifyOnSave
        { pref := pref, checked := checked }) =
      { pref := pref, checked := checked } := by
  rcases hp with h | h <;> subst h <;> subst hc <;> decide

/-- Claim C8 witness: double toggle from the persisted `"true"` state
with a matching checkmark is the identity. -/
theorem c8_witness :
    toggleBeautifyOnSave (toggleBeautifyOnSave
        { pref := some "true", checked := true }) =
      { pref := some "true", checked := true } :=
  c8_double_toggle_restores (some "true") true (Or.inl rfl) (by decide)

/-- Claim C10: every save-triggered beautification first clears the
editor's selection, so the orchestration runs on a selection-free
editor; in particular an exhaustion failure always shows the
whole-document message, never the selection-phrased one. -/
theorem c10_save_trigger_clears_selection (pref : Option String) (p : String)
    (ed : EditorState) (providers : List ProviderBehavior)
    (hpref : isBeautifyOnSaveEnabled pref = true) :
    prettifyOnSave pref (some (p, ed)) p providers =
      some (prettify (some (clearSelection ed)) providers) ∧
    hasSelection (clearSelection ed) = false ∧
    ((∀ q ∈ providers, q = ProviderBehavior.rejects) →
      (prettify (some (clearSelection ed)) providers).errorShown =
        some ErrMsg.beautifyError) := by
  refine ⟨by simp [prettifyOnSave, hpref], rfl, fun h => ?_⟩
  simp [prettify, fetch_all_rejects providers h, hasSelection, clearSelection]

/-- Claim C10 witness: a save of the active document with the preference
enabled and a selection present runs on the cleared editor and reports
exhaustion with the whole-document message. -/
theorem c10_witness :
    prettifyOnSave (some "true") (some ("a.js", edSel)) "a.js"
        [ProviderBehavior.rejects] =
      some (prettify (some (clearSelection edSel)) [ProviderBehavior.rejects]) ∧
    hasSelection (clearSelection edSel) = false ∧
    (prettify (some (clearSelection edSel))
        [ProviderBehavior.rejects]).errorShown = some ErrMsg.beautifyError := by
  have h := c10_save_trigger_clears_selection (some "true") "a.js" edSel
    [ProviderBehavior.rejects] (by decide)
  exact ⟨h.1, h.2.1, h.2.2 (by decide)⟩

end Beautify
